import Mathlib

/-
Verification development for the molecular-structure core of the repository.

The embedded code comes from the Structure and AtomProxy modules found in
src/src/buffer/text-buffer.js (the file concatenates three modules: TextBuffer,
Structure and AtomProxy).  JavaScript numbers are modelled as exact rationals
extended with a NaN element; typed arrays are modelled as a length together
with an index-to-value function; the Bitset, the columnar stores' raw field
arrays, the Selection collaborator, Math.sqrt, RadiusFactory and
BondProxy.calculateShiftDir are not part of the sources and are modelled from
the specification (or taken as parameters), as noted on each definition.
-/

namespace NGL

/-- JavaScript IEEE numbers, modelled as exact rationals together with a NaN
element.  Arithmetic propagates NaN and every comparison involving NaN is
false, matching JavaScript semantics. -/
inductive JsNum where
  | nan : JsNum
  | num : ℚ → JsNum
  deriving DecidableEq

namespace JsNum

/-- JavaScript subtraction: NaN propagates. -/
def sub : JsNum → JsNum → JsNum
  | num a, num b => num (a - b)
  | _, _ => nan

/-- JavaScript addition: NaN propagates. -/
def add : JsNum → JsNum → JsNum
  | num a, num b => num (a + b)
  | _, _ => nan

/-- JavaScript multiplication: NaN propagates. -/
def mul : JsNum → JsNum → JsNum
  | num a, num b => num (a * b)
  | _, _ => nan

/-- JavaScript strict less-than: any comparison with NaN is false. -/
def lt : JsNum → JsNum → Bool
  | num a, num b => decide (a < b)
  | _, _ => false

/-- JavaScript strict greater-than: any comparison with NaN is false. -/
def gt : JsNum → JsNum → Bool
  | num a, num b => decide (b < a)
  | _, _ => false

/-- The isNaN test of JavaScript. -/
def isNaN : JsNum → Bool
  | nan => true
  | num _ => false

end JsNum

/-- Columnar atom store.  The store implementation (src/store/atom-store.js) is
not among the sources; following the spec's data model, each per-row field is
a raw array, modelled as a function from row index; the altloc field array may
be absent, which the source guards for in AtomProxy.prototype.connectedTo.
Fields not used by any embedded operation are omitted. -/
structure AtomStore where
  count : ℕ
  x : ℕ → JsNum
  y : ℕ → JsNum
  z : ℕ → JsNum
  altloc : Option (ℕ → ℕ)
  residueIndex : ℕ → ℕ
  atomTypeId : ℕ → ℕ

/-- Columnar residue store (src/store/residue-store.js, not among the sources);
only the residueTypeId column is needed by the embedded operations. -/
structure ResidueStore where
  residueTypeId : ℕ → ℕ

/-- Columnar bond store (src/store/bond-store.js, not among the sources);
modelled from the spec's data model: per-bond columns atomIndex1, atomIndex2,
bondOrder, plus the row count. -/
structure BondStore where
  count : ℕ
  atomIndex1 : ℕ → ℕ
  atomIndex2 : ℕ → ℕ
  bondOrder : ℕ → ℕ

/-- Modelled from the spec: the backbone-class enumeration of
src/structure/structure-constants.js (not among the sources), carrying the
three coarse-grained variants tested by AtomProxy.prototype.isCg. -/
inductive BackboneType where
  | protein
  | rna
  | dna
  | unknownBackbone
  | cgProtein
  | cgRna
  | cgDna
  deriving DecidableEq

/-- Interned residue-type descriptor; only the backbone-class field is used by
the embedded operations. -/
structure ResidueType where
  backboneType : BackboneType

/-- Interned atom-type descriptor; only the covalent radius is used by the
embedded operations.  Covalent radii are plain numbers from the interner
table, modelled as rationals. -/
structure AtomType where
  covalent : ℚ

/-- The atom cursor of the AtomProxy module: references to the owning
structure's stores and interner maps plus the mutable current index.  The
back-references to the whole structure and to the chain store are omitted as
no embedded operation reads them. -/
structure AtomProxy where
  atomStore : AtomStore
  residueStore : ResidueStore
  residueMap : ℕ → ResidueType
  atomMap : ℕ → AtomType
  index : ℕ

namespace AtomProxy

/-- The residueType getter: resolves the interned residue type through
atomStore.residueIndex and residueStore.residueTypeId. -/
def residueType (self : AtomProxy) : ResidueType :=
  self.residueMap (self.residueStore.residueTypeId (self.atomStore.residueIndex self.index))

/-- The covalent getter: the covalent radius of the interned atom type. -/
def covalent (self : AtomProxy) : ℚ :=
  (self.atomMap (self.atomStore.atomTypeId self.index)).covalent

/-- AtomProxy.prototype.isCg: the residue type's backbone class is one of the
three coarse-grained variants. -/
def isCg (self : AtomProxy) : Bool :=
  let backboneType := (residueType self).backboneType
  backboneType == BackboneType.cgProtein ||
    backboneType == BackboneType.cgRna ||
    backboneType == BackboneType.cgDna

/-- The squared-distance expression computed identically inside
AtomProxy.prototype.distanceTo and AtomProxy.prototype.connectedTo:
componentwise differences of the raw store coordinates, squared and summed. -/
def distSquared (self other : AtomProxy) : JsNum :=
  let x := JsNum.sub (self.atomStore.x self.index) (other.atomStore.x other.index)
  let y := JsNum.sub (self.atomStore.y self.index) (other.atomStore.y other.index)
  let z := JsNum.sub (self.atomStore.z self.index) (other.atomStore.z other.index)
  JsNum.add (JsNum.add (JsNum.mul x x) (JsNum.mul y y)) (JsNum.mul z z)

/-- AtomProxy.prototype.distanceTo.  Math.sqrt is a JavaScript builtin, not
part of the sources, so it is taken as a parameter. -/
def distanceTo (sqrt : JsNum → JsNum) (self other : AtomProxy) : JsNum :=
  sqrt (distSquared self other)

/-- The alternate-location guard at the top of AtomProxy.prototype.connectedTo:
when both stores carry an altloc array, the bond is blocked unless one of the
two Uint8 codes is 0 (null) or 32 (space) or the codes agree. -/
def altlocBlocked (self other : AtomProxy) : Bool :=
  match self.atomStore.altloc, other.atomStore.altloc with
  | some tl, some al =>
      let ta := tl self.index
      let aa := al other.index
      !(ta == 0 || aa == 0 || ta == 32 || aa == 32 || ta == aa)
  | _, _ => false

/-- AtomProxy.prototype.connectedTo: altloc guard, then the coarse-grained
fast path (squared distance below 64 and the receiver is coarse-grained),
then the NaN guard, then the covalent window
d - 0.5 squared < distSquared < d + 0.3 squared for d the sum of the two
covalent radii. -/
def connectedTo (self other : AtomProxy) : Bool :=
  if altlocBlocked self other then false
  else if JsNum.lt (distSquared self other) (JsNum.num 64) && isCg self then true
  else if JsNum.isNaN (distSquared self other) then false
  else
    let d := covalent self + covalent other
    let d1 := d + 3/10
    let d2 := d - 1/2
    JsNum.lt (distSquared self other) (JsNum.num (d1 * d1)) &&
      JsNum.gt (distSquared self other) (JsNum.num (d2 * d2))

/-- The body of AtomProxy.prototype.connectedTo with the alternate-location
guard removed, used to state that on non-blocking codes the guard does not
influence the result. -/
def connectedToIgnoringAltloc (self other : AtomProxy) : Bool :=
  if JsNum.lt (distSquared self other) (JsNum.num 64) && isCg self then true
  else if JsNum.isNaN (distSquared self other) then false
  else
    let d := covalent self + covalent other
    let d1 := d + 3/10
    let d2 := d - 1/2
    JsNum.lt (distSquared self other) (JsNum.num (d1 * d1)) &&
      JsNum.gt (distSquared self other) (JsNum.num (d2 * d2))

end AtomProxy

/-- Modelled from the spec: the Bitset of src/utils/bitset.js (not among the
sources), a fixed-capacity bit vector; membership is modelled as a finite set
of row indices together with the capacity. -/
structure Bitset where
  length : ℕ
  mem : Finset ℕ
  deriving DecidableEq

namespace Bitset

/-- Modelled from the spec: the Bitset constructor; a fresh bitset of capacity
n has all bits clear. -/
def ofLength (n : ℕ) : Bitset :=
  ⟨n, ∅⟩

/-- Modelled from the spec: has(i) tests bit i. -/
def has (b : Bitset) (i : ℕ) : Bool :=
  decide (i ∈ b.mem)

/-- Modelled from the spec: size() is the population count. -/
def size (b : Bitset) : ℕ :=
  b.mem.card

/-- Modelled from the spec: the add variant that skips bounds checks simply
sets bit i (the source name carries an unsafe suffix). -/
def addUnsafe (b : Bitset) (i : ℕ) : Bitset :=
  ⟨b.length, insert i b.mem⟩

/-- Modelled from the spec: set_all fills or clears all capacity bits. -/
def set_all (b : Bitset) (flag : Bool) : Bitset :=
  ⟨b.length, if flag then Finset.range b.length else ∅⟩

/-- Modelled from the spec: intersection mutates the receiver into, and
returns, the bitwise AND of the two operands. -/
def intersection (b other : Bitset) : Bitset :=
  ⟨b.length, b.mem ∩ other.mem⟩

/-- Modelled from the spec: forEach visits the set bits in strictly ascending
order; the visit order is made explicit as the sorted list of members. -/
def sorted (b : Bitset) : List ℕ :=
  b.mem.sort (· ≤ ·)

end Bitset

/-- Association-list lookup standing for reading a property of a plain
string-keyed JavaScript object (the named-selection dictionaries). -/
def dictGet {α : Type} : List (String × α) → String → Option α
  | [], _ => none
  | (k0, v0) :: rest, k => if k0 = k then some v0 else dictGet rest k

/-- Association-list update standing for assigning a property of a plain
string-keyed JavaScript object: an existing key is overwritten in place, a new
key is appended in insertion order. -/
def dictSet {α : Type} : List (String × α) → String → α → List (String × α)
  | [], k, v => [(k, v)]
  | (k0, v0) :: rest, k, v =>
      if k0 = k then (k, v) :: rest else (k0, v0) :: dictSet rest k v

/-- The argument accepted by Structure.prototype.getAtomSet: undefined, a
boolean, or a Selection collaborator.  The Selection is an external opaque
predicate; modelled from the spec as its string identifier together with the
per-atom-index test. -/
inductive Sel where
  | undef : Sel
  | isFalse : Sel
  | isTrue : Sel
  | pred : String → (ℕ → Bool) → Sel

/-- The Structure aggregate.  Only the state read or written by the embedded
operations is modelled: the stores, the named-selection dictionary and cache,
the full atom/bond bitsets and counts, and the two scratch cursors (modelled
by the index they are bound to).  Signals, GidPool registration, bounding
box and center are external or geometric state not touched by any claim and
are omitted. -/
structure Structure where
  atomStore : AtomStore
  bondStore : BondStore
  atomSetDict : List (String × Bitset)
  atomSetCache : List (String × Bitset)
  atomSet : Option Bitset
  bondSet : Option Bitset
  atomCount : ℕ
  bondCount : ℕ
  __tmpAtomProxy : Option ℕ
  __tmpResidueProxy : Option ℕ

namespace Structure

/-- Structure.prototype.getAtomSet.  A false selection yields a fresh empty
bitset; true or undefined yield a full bitset; a Selection object is answered
from the string-keyed cache or computed (modelled from the spec: eachAtom with
a selection visits exactly the atom indices passing the test) and cached.
Returns the bitset together with the possibly updated structure. -/
def getAtomSet (s : Structure) (selection : Sel) : Bitset × Structure :=
  let n := s.atomStore.count
  match selection with
  | Sel.isFalse => (Bitset.ofLength n, s)
  | Sel.isTrue => ((Bitset.ofLength n).set_all true, s)
  | Sel.pred seleString test =>
      match dictGet s.atomSetCache seleString with
      | some as => (as, s)
      | none =>
          let as : Bitset := ⟨n, (Finset.range n).filter (fun i => test i = true)⟩
          (as, { s with atomSetCache := dictSet s.atomSetCache seleString as })
  | Sel.undef => ((Bitset.ofLength n).set_all true, s)

/-- Structure.prototype.getBondSet (the selection parameter is unimplemented
in the source and ignored): when the structure's atom set is present, scan all
bond rows and set the bits whose two endpoint atoms are both in the atom set;
otherwise fill all bits. -/
def getBondSet (s : Structure) : Bitset :=
  let n := s.bondStore.count
  match s.atomSet with
  | some as =>
      (List.range n).foldl
        (fun bs i =>
          if as.has (s.bondStore.atomIndex1 i) && as.has (s.bondStore.atomIndex2 i) then
            bs.addUnsafe i
          else bs)
        (Bitset.ofLength n)
  | none => (Bitset.ofLength n).set_all true

/-- Structure.prototype.refresh: clear the named-selection cache, recompute
the full atom set and then the bond set, then for every entry of the
named-selection dictionary store under the double-underscore-prefixed key the
intersection of getAtomSet(false) with the stored bitset, and update the atom
and bond counts.  Bounding box, center, GidPool update and the refreshed
signal are external or geometric effects outside the modelled state. -/
def refresh (s : Structure) : Structure :=
  let s0 := { s with atomSetCache := [] }
  let r1 := getAtomSet s0 Sel.undef
  let s1 := { r1.2 with atomSet := some r1.1 }
  let bondSet := getBondSet s1
  let s2 := { s1 with bondSet := some bondSet }
  let s3 := s2.atomSetDict.foldl
    (fun acc entry =>
      let r2 := getAtomSet acc Sel.isFalse
      { r2.2 with
        atomSetCache :=
          dictSet r2.2.atomSetCache ("__" ++ entry.1) (r2.1.intersection entry.2) })
    s2
  { s3 with atomCount := r1.1.size, bondCount := bondSet.size }

/-- Structure.prototype.getAtomProxy: without tmp a fresh cursor bound to the
given index is returned; with tmp the structure-owned scratch cursor is
created on first request and returned unchanged (the index argument is not
applied) on every later request.  A cursor is represented by the index it is
bound to; the returned structure carries the scratch-cursor state. -/
def getAtomProxy (s : Structure) (index : ℕ) (tmp : Bool) : Structure × ℕ :=
  if tmp then
    match s.__tmpAtomProxy with
    | none => ({ s with __tmpAtomProxy := some index }, index)
    | some p => (s, p)
  else (s, index)

/-- Structure.prototype.getResidueProxy: same scratch-cursor discipline as
getAtomProxy, with its own scratch slot. -/
def getResidueProxy (s : Structure) (index : ℕ) (tmp : Bool) : Structure × ℕ :=
  if tmp then
    match s.__tmpResidueProxy with
    | none => ({ s with __tmpResidueProxy := some index }, index)
    | some p => (s, p)
  else (s, index)

end Structure

/-- A Float32Array: fixed length chosen at allocation, zero-initialised,
writes outside the range are dropped.  Values are kept as JsNum (the claims
concern which store values land where, not float rounding). -/
structure JsArray where
  length : ℕ
  data : ℕ → JsNum

namespace JsArray

/-- Allocation of a zero-filled typed array of the given length. -/
def alloc (n : ℕ) : JsArray :=
  ⟨n, fun _ => JsNum.num 0⟩

/-- Indexed write; out-of-range writes are dropped as on a typed array. -/
def set (a : JsArray) (i : ℕ) (v : JsNum) : JsArray :=
  if i < a.length then ⟨a.length, Function.update a.data i v⟩ else a

end JsArray

/-- A coordinate triple as read from or written to a flat array. -/
def Vec3 : Type := JsNum × JsNum × JsNum

/-- The coordinate triple of an atom row, as read through the x, y, z
getters. -/
def atomVec (st : AtomStore) (i : ℕ) : Vec3 :=
  (st.x i, st.y i, st.z i)

/-- Componentwise Vector3.addVectors. -/
def vadd (a b : Vec3) : Vec3 :=
  (JsNum.add a.1 b.1, JsNum.add a.2.1 b.2.1, JsNum.add a.2.2 b.2.2)

/-- Componentwise Vector3.subVectors. -/
def vsub (a b : Vec3) : Vec3 :=
  (JsNum.sub a.1 b.1, JsNum.sub a.2.1 b.2.1, JsNum.sub a.2.2 b.2.2)

/-- A rational direction scaled by a rational factor, yielding the shift
vector written by the multiple-bond expansion. -/
def qscale (s : ℚ) (u : ℚ × ℚ × ℚ) : Vec3 :=
  (JsNum.num (s * u.1), JsNum.num (s * u.2.1), JsNum.num (s * u.2.2))

/-- positionToArray: write the three components at offset, offset+1,
offset+2. -/
def writeVec3 (a : JsArray) (offset : ℕ) (v : Vec3) : JsArray :=
  ((a.set offset v.1).set (offset + 1) v.2.1).set (offset + 2) v.2.2

/-- The three cells at offset, offset+1, offset+2 of a flat array. -/
def readVec3 (a : JsArray) (offset : ℕ) : Vec3 :=
  (a.data offset, a.data (offset + 1), a.data (offset + 2))

/-- The body of the forEach callback of Structure.prototype.getAtomData
restricted to the position channel: for the pair of ordinal and atom index the
atom's coordinates are written at offset ordinal times 3. -/
def atomPosWrite (st : AtomStore) (arr : JsArray) (pr : ℕ × ℕ) : JsArray :=
  writeVec3 arr (pr.1 * 3) (atomVec st pr.2)

/-- Structure.prototype.getAtomData restricted to the request
what = \x7b position: true \x7d with an explicit selection bitset (the other
channels are produced through the external ColorMakerRegistry and
RadiusFactory collaborators and are not requested by the claim): a
Float32Array of atomCount * 3 cells is allocated and the selected atoms'
coordinates are written in ascending bitset order, ordinal k at offset 3k.
The bitset's forEach is modelled from the spec as the ascending list of set
bits paired with their ordinals. -/
def getAtomDataPosition (st : AtomStore) (atomSet : Bitset) : JsArray :=
  let atomCount := atomSet.size
  (atomSet.sorted.enum).foldl (atomPosWrite st) (JsArray.alloc (atomCount * 3))

/-- The body of the forEach callback of Structure.prototype.getBondData
restricted to the position channel with multipleBond enabled: the running
write ordinal i advances by the bond order; a bond of order 2 writes the two
endpoints shifted by plus and minus the shift vector, order 3 writes the
undisplaced endpoints and then the two shifted copies, any other order above 3
(and the plain orders up to 1) writes the single undisplaced segment.  The
shift vector is the externally computed unit direction
(BondProxy.prototype.calculateShiftDir, not among the sources, taken as a
parameter) scaled by radius - radius / bondOrder * bondSpacing, the radius
coming from the external RadiusFactory, also a parameter. -/
def bondPosWrite (st : AtomStore) (bondStore : BondStore) (radiusOf : ℕ → ℚ)
    (shiftDir : ℕ → ℚ × ℚ × ℚ) (bondSpacing : ℚ)
    (acc : ℕ × JsArray × JsArray) (index : ℕ) : ℕ × JsArray × JsArray :=
  let i := acc.1
  let position1 := acc.2.1
  let position2 := acc.2.2
  let i3 := i * 3
  let ai1 := bondStore.atomIndex1 index
  let ai2 := bondStore.atomIndex2 index
  let bondOrder := bondStore.bondOrder index
  let p1 := atomVec st ai1
  let p2 := atomVec st ai2
  if 1 < bondOrder then
    let radius := radiusOf ai1
    let multiRadius := radius / (bondOrder : ℚ) * bondSpacing
    let vShift := qscale (radius - multiRadius) (shiftDir index)
    if bondOrder = 2 then
      (i + bondOrder,
        writeVec3 (writeVec3 position1 i3 (vadd p1 vShift)) (i3 + 3) (vsub p1 vShift),
        writeVec3 (writeVec3 position2 i3 (vadd p2 vShift)) (i3 + 3) (vsub p2 vShift))
    else if bondOrder = 3 then
      (i + bondOrder,
        writeVec3 (writeVec3 (writeVec3 position1 i3 p1) (i3 + 3) (vadd p1 vShift))
          (i3 + 6) (vsub p1 vShift),
        writeVec3 (writeVec3 (writeVec3 position2 i3 p2) (i3 + 3) (vadd p2 vShift))
          (i3 + 6) (vsub p2 vShift))
    else
      (i + bondOrder, writeVec3 position1 i3 p1, writeVec3 position2 i3 p2)
  else
    (i + bondOrder, writeVec3 position1 i3 p1, writeVec3 position2 i3 p2)

/-- The total number of segments allocated by getBondData with multipleBond:
the sum of the bond orders over the visited bonds. -/
def sumOrders (bondStore : BondStore) (l : List ℕ) : ℕ :=
  (l.map bondStore.bondOrder).sum

/-- Structure.prototype.getBondData restricted to the request
what = \x7b position: true \x7d with multipleBond enabled and an explicit
selection bitset: two Float32Arrays of bondCount * 3 cells are allocated,
bondCount summing the bond orders over the set, and the bonds are expanded in
ascending bitset order by bondPosWrite. -/
def getBondDataPosition (st : AtomStore) (bondStore : BondStore) (radiusOf : ℕ → ℚ)
    (shiftDir : ℕ → ℚ × ℚ × ℚ) (bondSpacing : ℚ) (bondSet : Bitset) :
    JsArray × JsArray :=
  let bondCount := sumOrders bondStore bondSet.sorted
  let r := bondSet.sorted.foldl (bondPosWrite st bondStore radiusOf shiftDir bondSpacing)
    (0, JsArray.alloc (bondCount * 3), JsArray.alloc (bondCount * 3))
  (r.2.1, r.2.2)

/-- The shift vector applied by the multiple-bond expansion to the bond row
idx: the externally computed direction scaled by
radius - radius / bondOrder * bondSpacing (not, as the specification claims,
by radius / bondOrder * bondSpacing). -/
def bondShiftVec (bs : BondStore) (radiusOf : ℕ → ℚ) (shiftDir : ℕ → ℚ × ℚ × ℚ)
    (sp : ℚ) (idx : ℕ) : Vec3 :=
  qscale (radiusOf (bs.atomIndex1 idx) -
    radiusOf (bs.atomIndex1 idx) / (bs.bondOrder idx : ℚ) * sp) (shiftDir idx)

/-- The per-bond contract of the multiple-bond position expansion, for the
bond row idx written at segment ordinal o of the two output arrays: order 2
yields the two endpoint segments displaced by plus and minus the shift
vector; order 3 yields the undisplaced segment followed by the plus and minus
displaced copies; order above 3 yields a single undisplaced segment. -/
def bondSegsOk (st : AtomStore) (bs : BondStore) (radiusOf : ℕ → ℚ)
    (shiftDir : ℕ → ℚ × ℚ × ℚ) (sp : ℚ) (pos1 pos2 : JsArray) (o idx : ℕ) : Prop :=
  (bs.bondOrder idx = 2 →
    readVec3 pos1 (o * 3) =
      vadd (atomVec st (bs.atomIndex1 idx)) (bondShiftVec bs radiusOf shiftDir sp idx) ∧
    readVec3 pos1 (o * 3 + 3) =
      vsub (atomVec st (bs.atomIndex1 idx)) (bondShiftVec bs radiusOf shiftDir sp idx) ∧
    readVec3 pos2 (o * 3) =
      vadd (atomVec st (bs.atomIndex2 idx)) (bondShiftVec bs radiusOf shiftDir sp idx) ∧
    readVec3 pos2 (o * 3 + 3) =
      vsub (atomVec st (bs.atomIndex2 idx)) (bondShiftVec bs radiusOf shiftDir sp idx)) ∧
  (bs.bondOrder idx = 3 →
    readVec3 pos1 (o * 3) = atomVec st (bs.atomIndex1 idx) ∧
    readVec3 pos1 (o * 3 + 3) =
      vadd (atomVec st (bs.atomIndex1 idx)) (bondShiftVec bs radiusOf shiftDir sp idx) ∧
    readVec3 pos1 (o * 3 + 6) =
      vsub (atomVec st (bs.atomIndex1 idx)) (bondShiftVec bs radiusOf shiftDir sp idx) ∧
    readVec3 pos2 (o * 3) = atomVec st (bs.atomIndex2 idx) ∧
    readVec3 pos2 (o * 3 + 3) =
      vadd (atomVec st (bs.atomIndex2 idx)) (bondShiftVec bs radiusOf shiftDir sp idx) ∧
    readVec3 pos2 (o * 3 + 6) =
      vsub (atomVec st (bs.atomIndex2 idx)) (bondShiftVec bs radiusOf shiftDir sp idx)) ∧
  (3 < bs.bondOrder idx →
    readVec3 pos1 (o * 3) = atomVec st (bs.atomIndex1 idx) ∧
    readVec3 pos2 (o * 3) = atomVec st (bs.atomIndex2 idx))

/-! Concrete fixtures used by the closed witnesses and counterexamples. -/

/-- A one-atom store with the given coordinates and altloc array. -/
def mkStore (xv yv zv : JsNum) (al : Option (ℕ → ℕ)) : AtomStore :=
  ⟨1, fun _ => xv, fun _ => yv, fun _ => zv, al, fun _ => 0, fun _ => 0⟩

/-- A cursor over a one-atom store whose residue type has the given backbone
class and whose atom type has the given covalent radius. -/
def mkProxy (st : AtomStore) (bt : BackboneType) (cov : ℚ) : AtomProxy :=
  ⟨st, ⟨fun _ => 0⟩, fun _ => ⟨bt⟩, fun _ => ⟨cov⟩, 0⟩

/-- A non-coarse-grained atom at the origin, covalent radius 0.75. -/
def cgA : AtomProxy :=
  mkProxy (mkStore (JsNum.num 0) (JsNum.num 0) (JsNum.num 0) none)
    BackboneType.unknownBackbone (3/4)

/-- A coarse-grained atom at distance 5 from the origin, covalent radius
0.75. -/
def cgB : AtomProxy :=
  mkProxy (mkStore (JsNum.num 5) (JsNum.num 0) (JsNum.num 0) none)
    BackboneType.cgProtein (3/4)

/-- A plain atom at the origin, covalent radius 0.75. -/
def winA : AtomProxy :=
  mkProxy (mkStore (JsNum.num 0) (JsNum.num 0) (JsNum.num 0) none)
    BackboneType.unknownBackbone (3/4)

/-- A plain atom at distance 1.6 from the origin, covalent radius 0.75. -/
def winB : AtomProxy :=
  mkProxy (mkStore (JsNum.num (8/5)) (JsNum.num 0) (JsNum.num 0) none)
    BackboneType.unknownBackbone (3/4)

/-- A plain atom at distance 2.0 from the origin, covalent radius 0.75. -/
def winC : AtomProxy :=
  mkProxy (mkStore (JsNum.num 2) (JsNum.num 0) (JsNum.num 0) none)
    BackboneType.unknownBackbone (3/4)

/-- An atom at the origin with alternate-location code 65. -/
def alA : AtomProxy :=
  mkProxy (mkStore (JsNum.num 0) (JsNum.num 0) (JsNum.num 0) (some fun _ => 65))
    BackboneType.unknownBackbone (3/4)

/-- An atom at distance 1 with alternate-location code 66. -/
def alB : AtomProxy :=
  mkProxy (mkStore (JsNum.num 1) (JsNum.num 0) (JsNum.num 0) (some fun _ => 66))
    BackboneType.unknownBackbone (3/4)

/-- An atom at distance 1 with alternate-location code 65. -/
def alC : AtomProxy :=
  mkProxy (mkStore (JsNum.num 1) (JsNum.num 0) (JsNum.num 0) (some fun _ => 65))
    BackboneType.unknownBackbone (3/4)

/-- An atom whose x coordinate is NaN. -/
def nanA : AtomProxy :=
  mkProxy (mkStore JsNum.nan (JsNum.num 0) (JsNum.num 0) none)
    BackboneType.unknownBackbone (3/4)

/-- A plain atom at the origin used opposite the NaN atom. -/
def nanB : AtomProxy :=
  mkProxy (mkStore (JsNum.num 0) (JsNum.num 0) (JsNum.num 0) none)
    BackboneType.unknownBackbone (3/4)

/-- A structure with one atom, no bonds, and empty dictionaries; used by the
scratch-cursor witness. -/
def sEmpty : Structure :=
  ⟨mkStore (JsNum.num 0) (JsNum.num 0) (JsNum.num 0) none,
    ⟨0, fun _ => 0, fun _ => 0, fun _ => 0⟩,
    [], [], none, none, 0, 0, none, none⟩

/-- A structure whose atom set is the bitset with bits 0 and 1 of capacity 3,
with two bonds: bond 0 joins atoms 0 and 1 (both selected), bond 1 joins
atoms 1 and 2 (atom 2 unselected). -/
def sBonds : Structure :=
  ⟨mkStore (JsNum.num 0) (JsNum.num 0) (JsNum.num 0) none,
    ⟨2, fun i => i, fun i => i + 1, fun _ => 1⟩,
    [], [], some ⟨3, {0, 1}⟩, none, 0, 0, none, none⟩

/-- A one-atom structure whose named-selection dictionary holds the selection
named test matching exactly atom 0; used to evaluate refresh. -/
def sRefresh : Structure :=
  ⟨⟨1, fun _ => JsNum.num 0, fun _ => JsNum.num 0, fun _ => JsNum.num 0, none,
      fun _ => 0, fun _ => 0⟩,
    ⟨0, fun _ => 0, fun _ => 0, fun _ => 0⟩,
    [("test", ⟨1, {0}⟩)], [], none, none, 0, 0, none, none⟩

/-- A three-atom store with coordinates (i, 2i, 3i) for atom i. -/
def st7 : AtomStore :=
  ⟨3, fun i => JsNum.num i, fun i => JsNum.num (2 * i), fun i => JsNum.num (3 * i),
    none, fun _ => 0, fun _ => 0⟩

/-- The selection bitset with bits 0 and 2 of capacity 3. -/
def S7 : Bitset := ⟨3, {0, 2}⟩

/-- A two-atom store at the origin and at (0, 0, 1). -/
def st3 : AtomStore :=
  ⟨2, fun _ => JsNum.num 0, fun _ => JsNum.num 0,
    fun i => JsNum.num (if i = 0 then 0 else 1), none, fun _ => 0, fun _ => 0⟩

/-- A bond store with a single order-2 bond between atoms 0 and 1. -/
def bs3 : BondStore := ⟨1, fun _ => 0, fun _ => 1, fun _ => 2⟩

/-- A bond store with a single order-5 bond between atoms 0 and 1. -/
def bs5 : BondStore := ⟨1, fun _ => 0, fun _ => 1, fun _ => 5⟩

/-- The bond selection bitset with bit 0 of capacity 1. -/
def Sb : Bitset := ⟨1, {0}⟩

/-- A unit shift direction along the x axis, perpendicular to the z-aligned
test bond. -/
def shiftX : ℕ → ℚ × ℚ × ℚ := fun _ => (1, 0, 0)

/-! Theorems. -/

/-- The squared product of a difference is unchanged under swapping the
operands of the subtraction, including the NaN cases. -/
theorem JsNum.mul_sub_comm (p q : JsNum) :
    JsNum.mul (JsNum.sub p q) (JsNum.sub p q) = JsNum.mul (JsNum.sub q p) (JsNum.sub q p) := by
  cases p with
  | nan => cases q <;> rfl
  | num a =>
    cases q with
    | nan => rfl
    | num b =>
      show JsNum.num ((a - b) * (a - b)) = JsNum.num ((b - a) * (b - a))
      congr 1
      ring

/-- Subtracting from NaN yields NaN. -/
theorem JsNum.nan_sub (q : JsNum) : JsNum.sub JsNum.nan q = JsNum.nan := by
  cases q <;> rfl

/-- Subtracting NaN yields NaN. -/
theorem JsNum.sub_nan (p : JsNum) : JsNum.sub p JsNum.nan = JsNum.nan := by
  cases p <;> rfl

/-- Multiplying NaN on the left yields NaN. -/
theorem JsNum.nan_mul (q : JsNum) : JsNum.mul JsNum.nan q = JsNum.nan := by
  cases q <;> rfl

/-- Adding NaN on the left yields NaN. -/
theorem JsNum.nan_add (q : JsNum) : JsNum.add JsNum.nan q = JsNum.nan := by
  cases q <;> rfl

/-- Adding NaN on the right yields NaN. -/
theorem JsNum.add_nan (p : JsNum) : JsNum.add p JsNum.nan = JsNum.nan := by
  cases p <;> rfl

/-- The shared squared-distance expression is symmetric in the two cursors. -/
theorem distSquared_comm (a b : AtomProxy) :
    AtomProxy.distSquared a b = AtomProxy.distSquared b a := by
  simp only [AtomProxy.distSquared]
  rw [JsNum.mul_sub_comm (a.atomStore.x a.index) (b.atomStore.x b.index),
    JsNum.mul_sub_comm (a.atomStore.y a.index) (b.atomStore.y b.index),
    JsNum.mul_sub_comm (a.atomStore.z a.index) (b.atomStore.z b.index)]

/-- C10: distanceTo is symmetric: for every pair of atom cursors, possibly
over different stores, and for any square-root function, the distance from a
to b equals the distance from b to a, because every coordinate difference is
squared before summation. -/
theorem claim_C10_distanceTo_comm (sqrt : JsNum → JsNum) (a b : AtomProxy) :
    AtomProxy.distanceTo sqrt a b = AtomProxy.distanceTo sqrt b a := by
  show sqrt (AtomProxy.distSquared a b) = sqrt (AtomProxy.distSquared b a)
  rw [distSquared_comm a b]

/-- If any of the six coordinates entering the squared distance is NaN, the
squared distance is NaN. -/
theorem distSquared_nan_of_coord_nan (a b : AtomProxy)
    (h : a.atomStore.x a.index = JsNum.nan ∨ a.atomStore.y a.index = JsNum.nan ∨
      a.atomStore.z a.index = JsNum.nan ∨ b.atomStore.x b.index = JsNum.nan ∨
      b.atomStore.y b.index = JsNum.nan ∨ b.atomStore.z b.index = JsNum.nan) :
    AtomProxy.distSquared a b = JsNum.nan := by
  simp only [AtomProxy.distSquared]
  rcases h with h | h | h | h | h | h <;> rw [h] <;>
    simp [JsNum.nan_sub, JsNum.sub_nan, JsNum.nan_mul, JsNum.nan_add, JsNum.add_nan]

/-- C8: when a coordinate of either cursor is NaN the squared distance is NaN,
the coarse-grained fast path cannot fire (a NaN comparison is false), and
connectedTo returns false rather than propagating an error. -/
theorem claim_C8_connectedTo_nan (a b : AtomProxy)
    (h : a.atomStore.x a.index = JsNum.nan ∨ a.atomStore.y a.index = JsNum.nan ∨
      a.atomStore.z a.index = JsNum.nan ∨ b.atomStore.x b.index = JsNum.nan ∨
      b.atomStore.y b.index = JsNum.nan ∨ b.atomStore.z b.index = JsNum.nan) :
    AtomProxy.connectedTo a b = false := by
  have hd := distSquared_nan_of_coord_nan a b h
  unfold AtomProxy.connectedTo
  rw [hd]
  cases hb : AtomProxy.altlocBlocked a b <;> simp [JsNum.lt, JsNum.isNaN]

/-- C8 witness: a concrete pair with a NaN x coordinate. -/
theorem claim_C8_witness : AtomProxy.connectedTo nanA nanB = false :=
  claim_C8_connectedTo_nan nanA nanB (Or.inl rfl)

/-- C2 counterexample: the other atom is coarse-grained and the squared
distance 25 is below 64, yet connectedTo(self, other) is false — the
coarse-grained fast path tests only the receiver, so the test is not
symmetric as claimed. -/
theorem claim_C2_counterexample :
    AtomProxy.isCg cgB = true ∧
    JsNum.lt (AtomProxy.distSquared cgA cgB) (JsNum.num 64) = true ∧
    AtomProxy.connectedTo cgA cgB = false := by
  refine ⟨rfl, ?_, ?_⟩ <;>
    · norm_num [AtomProxy.connectedTo, AtomProxy.altlocBlocked, AtomProxy.isCg,
        AtomProxy.residueType, AtomProxy.covalent, AtomProxy.distSquared, JsNum.sub,
        JsNum.mul, JsNum.add, JsNum.lt, JsNum.gt, JsNum.isNaN, cgA, cgB, mkProxy, mkStore]
      all_goals decide

/-- C2 amended: if the alternate-location guard does not block the pair, the
receiver (self) is coarse-grained and the squared distance is below 64, then
connectedTo returns true regardless of covalent radii; the fast path inspects
only the receiver, so it is not symmetric in the two atoms. -/
theorem claim_C2_cg_fast_path (a b : AtomProxy)
    (hblock : AtomProxy.altlocBlocked a b = false)
    (hcg : AtomProxy.isCg a = true)
    (hlt : JsNum.lt (AtomProxy.distSquared a b) (JsNum.num 64) = true) :
    AtomProxy.connectedTo a b = true := by
  unfold AtomProxy.connectedTo
  simp [hblock, hcg, hlt]

/-- C2 witness: the coarse-grained atom as receiver at squared distance 25. -/
theorem claim_C2_witness :
    AtomProxy.altlocBlocked cgB cgA = false ∧ AtomProxy.isCg cgB = true ∧
    JsNum.lt (AtomProxy.distSquared cgB cgA) (JsNum.num 64) = true ∧
    AtomProxy.connectedTo cgB cgA = true :=
  ⟨rfl, rfl,
    by norm_num [AtomProxy.distSquared, JsNum.sub, JsNum.mul, JsNum.add, JsNum.lt,
      cgA, cgB, mkProxy, mkStore],
    claim_C2_cg_fast_path cgB cgA rfl rfl
      (by norm_num [AtomProxy.distSquared, JsNum.sub, JsNum.mul, JsNum.add, JsNum.lt,
        cgA, cgB, mkProxy, mkStore])⟩

/-- C4: for two non-coarse-grained atoms whose alternate-location codes do not
block bonding and whose squared distance is the plain number q, connectedTo is
true exactly when q lies strictly inside the asymmetric covalent window
between (r - 0.5) squared and (r + 0.3) squared, r being the sum of the two
covalent radii. -/
theorem claim_C4_covalent_window (a b : AtomProxy) (q : ℚ)
    (hcg1 : AtomProxy.isCg a = false) (hcg2 : AtomProxy.isCg b = false)
    (hblock : AtomProxy.altlocBlocked a b = false)
    (hd : AtomProxy.distSquared a b = JsNum.num q) :
    (AtomProxy.connectedTo a b = true ↔
      ((AtomProxy.covalent a + AtomProxy.covalent b - 1/2) ^ 2 < q ∧
        q < (AtomProxy.covalent a + AtomProxy.covalent b + 3/10) ^ 2)) := by
  unfold AtomProxy.connectedTo
  rw [hd]
  simp only [hblock, hcg1, Bool.and_false, if_false, JsNum.isNaN, JsNum.lt, JsNum.gt,
    Bool.false_eq_true, Bool.and_eq_true, decide_eq_true_eq]
  rw [pow_two, pow_two]
  exact and_comm

/-- C4 witness: covalent radii summing to 1.5; distance 1.6 bonds, distance
2.0 does not. -/
theorem claim_C4_witness :
    AtomProxy.connectedTo winA winB = true ∧ AtomProxy.connectedTo winA winC = false :=
  ⟨(claim_C4_covalent_window winA winB (64/25) rfl rfl rfl
      (by norm_num [AtomProxy.distSquared, JsNum.sub, JsNum.mul, JsNum.add,
        winA, winB, mkProxy, mkStore])).mpr
      (by norm_num [AtomProxy.covalent, winA, winB, mkProxy, mkStore]),
    by
      norm_num [AtomProxy.connectedTo, AtomProxy.altlocBlocked, AtomProxy.isCg,
        AtomProxy.residueType, AtomProxy.covalent, AtomProxy.distSquared, JsNum.sub,
        JsNum.mul, JsNum.add, JsNum.lt, JsNum.gt, JsNum.isNaN, winA, winC, mkProxy, mkStore]
      all_goals decide⟩

/-- C5: when both stores carry alternate-location arrays, two differing codes
that are both neither 0 (null) nor 32 (space) force connectedTo to false
regardless of distance, and whenever either code is 0 or 32 or the codes
agree, connectedTo coincides with the predicate that ignores the
alternate-location guard entirely. -/
theorem claim_C5_altloc_guard (a b : AtomProxy) (tl al : ℕ → ℕ)
    (h1 : a.atomStore.altloc = some tl) (h2 : b.atomStore.altloc = some al) :
    ((tl a.index ≠ 0 ∧ al b.index ≠ 0 ∧ tl a.index ≠ 32 ∧ al b.index ≠ 32 ∧
        tl a.index ≠ al b.index) → AtomProxy.connectedTo a b = false) ∧
    ((tl a.index = 0 ∨ al b.index = 0 ∨ tl a.index = 32 ∨ al b.index = 32 ∨
        tl a.index = al b.index) →
      AtomProxy.connectedTo a b = AtomProxy.connectedToIgnoringAltloc a b) := by
  constructor
  · rintro ⟨hta, haa, hta32, haa32, hne⟩
    have hblock : AtomProxy.altlocBlocked a b = true := by
      unfold AtomProxy.altlocBlocked
      rw [h1, h2]
      simp [hta, haa, hta32, haa32, hne]
    unfold AtomProxy.connectedTo
    simp [hblock]
  · intro hor
    have hblock : AtomProxy.altlocBlocked a b = false := by
      unfold AtomProxy.altlocBlocked
      rw [h1, h2]
      rcases hor with h | h | h | h | h <;> simp [h]
    unfold AtomProxy.connectedTo AtomProxy.connectedToIgnoringAltloc
    simp [hblock]

/-- C5 witness: codes 65 and 66 at distance 1 block the bond; equal codes 65
and 65 leave the predicate unchanged. -/
theorem claim_C5_witness :
    AtomProxy.connectedTo alA alB = false ∧
    AtomProxy.connectedTo alA alC = AtomProxy.connectedToIgnoringAltloc alA alC :=
  ⟨(claim_C5_altloc_guard alA alB (fun _ => 65) (fun _ => 66) rfl rfl).1 (by decide),
    (claim_C5_altloc_guard alA alC (fun _ => 65) (fun _ => 65) rfl rfl).2 (by decide)⟩

/-- C9: on a structure whose scratch cursors are uninitialised, the first
tmp request creates the scratch cursor bound to the requested index; a second
tmp request returns the same cursor with its index unchanged, ignoring the new
index argument, and leaves the structure state untouched.  The same holds for
the residue scratch cursor. -/
theorem claim_C9_scratch_cursors (s : Structure) (i j : ℕ)
    (ha : s.__tmpAtomProxy = none) (hr : s.__tmpResidueProxy = none) :
    ((Structure.getAtomProxy s i true).2 = i ∧
      Structure.getAtomProxy (Structure.getAtomProxy s i true).1 j true =
        ((Structure.getAtomProxy s i true).1, i)) ∧
    ((Structure.getResidueProxy s i true).2 = i ∧
      Structure.getResidueProxy (Structure.getResidueProxy s i true).1 j true =
        ((Structure.getResidueProxy s i true).1, i)) := by
  simp [Structure.getAtomProxy, Structure.getResidueProxy, ha, hr]

/-- C9 witness: a concrete structure, first request at index 5, second at 9. -/
theorem claim_C9_witness :
    ((Structure.getAtomProxy sEmpty 5 true).2 = 5 ∧
      Structure.getAtomProxy (Structure.getAtomProxy sEmpty 5 true).1 9 true =
        ((Structure.getAtomProxy sEmpty 5 true).1, 5)) ∧
    ((Structure.getResidueProxy sEmpty 5 true).2 = 5 ∧
      Structure.getResidueProxy (Structure.getResidueProxy sEmpty 5 true).1 9 true =
        ((Structure.getResidueProxy sEmpty 5 true).1, 5)) :=
  claim_C9_scratch_cursors sEmpty 5 9 rfl rfl

/-- Membership after folding the conditional addUnsafe of getBondSet over a
list of bond indices. -/
theorem foldl_addIf_mem (cond : ℕ → Bool) (l : List ℕ) (bs0 : Bitset) (i : ℕ) :
    (i ∈ (l.foldl (fun bs k => if cond k then bs.addUnsafe k else bs) bs0).mem) ↔
      (i ∈ bs0.mem ∨ (i ∈ l ∧ cond i = true)) := by
  induction l generalizing bs0 with
  | nil => simp
  | cons hd tl ih =>
    simp only [List.foldl_cons]
    rw [ih]
    cases hc : cond hd with
    | false =>
      simp only [if_neg (by simp [hc] : ¬ cond hd = true), List.mem_cons]
      constructor
      · rintro (h | ⟨h1, h2⟩)
        · exact Or.inl h
        · exact Or.inr ⟨Or.inr h1, h2⟩
      · rintro (h | ⟨h1, h2⟩)
        · exact Or.inl h
        · rcases h1 with rfl | h1
          · rw [h2] at hc; cases hc
          · exact Or.inr ⟨h1, h2⟩
    | true =>
      rw [if_pos rfl]
      simp only [Bitset.addUnsafe, Finset.mem_insert, List.mem_cons]
      constructor
      · rintro ((rfl | h) | ⟨h1, h2⟩)
        · exact Or.inr ⟨Or.inl rfl, hc⟩
        · exact Or.inl h
        · exact Or.inr ⟨Or.inr h1, h2⟩
      · rintro (h | ⟨rfl | h1, h2⟩)
        · exact Or.inl (Or.inr h)
        · exact Or.inl (Or.inl rfl)
        · exact Or.inr ⟨h1, h2⟩

/-- C6: with the structure's atom set present, the recomputed bond bitset has
bit i (for a valid bond row i) exactly when both endpoint atom indices of bond
i are members of the atom set. -/
theorem claim_C6_bond_set (s : Structure) (as : Bitset) (i : ℕ)
    (hset : s.atomSet = some as) (hi : i < s.bondStore.count) :
    ((Structure.getBondSet s).has i = true ↔
      (as.has (s.bondStore.atomIndex1 i) = true ∧
        as.has (s.bondStore.atomIndex2 i) = true)) := by
  unfold Structure.getBondSet
  rw [hset]
  simp only [Bitset.has, decide_eq_true_eq]
  rw [foldl_addIf_mem]
  simp [Bitset.ofLength, List.mem_range, hi, Bool.and_eq_true]

/-- C6 witness: bond 0 of the concrete structure has both endpoints 0 and 1 in
the atom set, so its bit is set. -/
theorem claim_C6_witness : (Structure.getBondSet sBonds).has 0 = true :=
  (claim_C6_bond_set sBonds ⟨3, {0, 1}⟩ 0 rfl (by decide)).mpr ⟨by decide, by decide⟩

/-- C1: evaluating refresh on the one-atom structure whose dictionary names
the selection test matching atom 0: the cached bitset stored under the
double-underscore key is empty, because getAtomSet(false) returns a cleared
bitset which is then intersected with the stored set; the claim instead
predicts the stored match set intersected with the current full atom set,
which here is the nonempty set with bit 0. -/
theorem claim_C1_refresh_cache_empty :
    dictGet (Structure.refresh sRefresh).atomSetCache "__test" = some ⟨1, ∅⟩ ∧
    ((⟨1, {0}⟩ : Bitset).intersection ((Bitset.ofLength 1).set_all true)).mem = {0} ∧
    ({0} : Finset ℕ) ≠ (∅ : Finset ℕ) := by
  refine ⟨by decide, by decide, by decide⟩

/-- Writing preserves the length of a typed array. -/
theorem JsArray.length_set (a : JsArray) (i : ℕ) (v : JsNum) :
    (a.set i v).length = a.length := by
  unfold JsArray.set
  split <;> rfl

/-- Reading the cell just written, when the write is in range. -/
theorem JsArray.data_set_self (a : JsArray) (i : ℕ) (v : JsNum) (h : i < a.length) :
    (a.set i v).data i = v := by
  unfold JsArray.set
  rw [if_pos h]
  exact Function.update_same i v a.data

/-- Reading any other cell is unaffected by a write. -/
theorem JsArray.data_set_ne (a : JsArray) (i j : ℕ) (v : JsNum) (h : i ≠ j) :
    (a.set i v).data j = a.data j := by
  unfold JsArray.set
  split
  · exact Function.update_noteq (Ne.symm h) v a.data
  · rfl

/-- Writing a coordinate triple preserves the array length. -/
theorem writeVec3_length (a : JsArray) (o : ℕ) (v : Vec3) :
    (writeVec3 a o v).length = a.length := by
  simp [writeVec3, JsArray.length_set]

/-- Cells strictly below the offset of a coordinate-triple write are
unchanged. -/
theorem writeVec3_data_lt (a : JsArray) (o : ℕ) (v : Vec3) (p : ℕ) (h : p < o) :
    (writeVec3 a o v).data p = a.data p := by
  unfold writeVec3
  rw [JsArray.data_set_ne _ _ _ _ (by omega), JsArray.data_set_ne _ _ _ _ (by omega),
    JsArray.data_set_ne _ _ _ _ (by omega)]

/-- Reading back an in-range coordinate-triple write. -/
theorem readVec3_writeVec3 (a : JsArray) (o : ℕ) (v : Vec3) (h : o + 2 < a.length) :
    readVec3 (writeVec3 a o v) o = v := by
  obtain ⟨v1, v2, v3⟩ := v
  have h0 : o < a.length := by omega
  have h1 : o + 1 < a.length := by omega
  have e1 : (writeVec3 a o (v1, v2, v3)).data o = v1 := by
    unfold writeVec3
    rw [JsArray.data_set_ne _ _ _ _ (by omega), JsArray.data_set_ne _ _ _ _ (by omega),
      JsArray.data_set_self _ _ _ h0]
  have e2 : (writeVec3 a o (v1, v2, v3)).data (o + 1) = v2 := by
    unfold writeVec3
    rw [JsArray.data_set_ne _ _ _ _ (by omega),
      JsArray.data_set_self _ _ _ (by rw [JsArray.length_set]; omega)]
  have e3 : (writeVec3 a o (v1, v2, v3)).data (o + 2) = v3 := by
    unfold writeVec3
    rw [JsArray.data_set_self _ _ _ (by rw [JsArray.length_set, JsArray.length_set]; omega)]
  unfold readVec3
  rw [e1, e2, e3]

/-- The atom-position loop preserves the array length. -/
theorem atomPosLoop_length (st : AtomStore) (l : List (ℕ × ℕ)) (arr : JsArray) :
    (l.foldl (atomPosWrite st) arr).length = arr.length := by
  induction l generalizing arr with
  | nil => rfl
  | cons hd tl ih =>
    rw [List.foldl_cons, ih]
    simp [atomPosWrite, writeVec3_length]

/-- Cells below three times the starting ordinal are untouched by the
atom-position loop. -/
theorem atomPosLoop_frame (st : AtomStore) (l : List ℕ) (m : ℕ) (arr : JsArray) (p : ℕ)
    (hp : p < 3 * m) :
    ((List.enumFrom m l).foldl (atomPosWrite st) arr).data p = arr.data p := by
  induction l generalizing m arr with
  | nil => rfl
  | cons hd tl ih =>
    simp only [List.enumFrom, List.foldl_cons]
    rw [ih (m + 1) _ (by omega)]
    exact writeVec3_data_lt _ _ _ _ (by omega)

/-- The k-th cell triple produced by the atom-position loop holds the k-th
listed atom's coordinates, provided the array is long enough. -/
theorem atomPosLoop_read (st : AtomStore) (l : List ℕ) (m k : ℕ) (arr : JsArray)
    (hk : k < l.length) (hlen : 3 * (m + l.length) ≤ arr.length) :
    readVec3 ((List.enumFrom m l).foldl (atomPosWrite st) arr) ((m + k) * 3) =
      atomVec st (l.get ⟨k, hk⟩) := by
  induction l generalizing m k arr with
  | nil => exact absurd hk (by simp)
  | cons hd tl ih =>
    simp only [List.enumFrom, List.foldl_cons]
    simp only [List.length_cons] at hlen
    cases k with
    | zero =>
      have hf1 := atomPosLoop_frame st tl (m + 1) (atomPosWrite st arr (m, hd))
        ((m + 0) * 3) (by omega)
      have hf2 := atomPosLoop_frame st tl (m + 1) (atomPosWrite st arr (m, hd))
        ((m + 0) * 3 + 1) (by omega)
      have hf3 := atomPosLoop_frame st tl (m + 1) (atomPosWrite st arr (m, hd))
        ((m + 0) * 3 + 2) (by omega)
      unfold readVec3
      rw [hf1, hf2, hf3]
      have hread := readVec3_writeVec3 arr (m * 3) (atomVec st hd) (by omega)
      unfold readVec3 at hread
      simpa [atomPosWrite] using hread
    | succ k2 =>
      have hk2 : k2 < tl.length := by
        simp only [List.length_cons] at hk
        omega
      have hlen2 : 3 * ((m + 1) + tl.length) ≤ (atomPosWrite st arr (m, hd)).length := by
        simp only [atomPosWrite, writeVec3_length]
        omega
      have h := ih (m + 1) k2 (atomPosWrite st arr (m, hd)) hk2 hlen2
      have e : m + 1 + k2 = m + (k2 + 1) := by omega
      rw [e] at h
      exact h

/-- C7: for every selection bitset S, the position-only extraction returns an
array of length 3 times the population count of S, and the triple of cells at
offsets 3k, 3k+1, 3k+2 holds the coordinates of the k-th set bit of S in
ascending order. -/
theorem claim_C7_atom_positions (st : AtomStore) (S : Bitset) :
    (getAtomDataPosition st S).length = 3 * S.size ∧
    ∀ k (hk : k < S.sorted.length),
      readVec3 (getAtomDataPosition st S) (3 * k) = atomVec st (S.sorted.get ⟨k, hk⟩) := by
  constructor
  · unfold getAtomDataPosition
    rw [atomPosLoop_length]
    simp [JsArray.alloc, Nat.mul_comm]
  · intro k hk
    have hsl : S.sorted.length = S.size := by
      simp [Bitset.sorted, Bitset.size, Finset.length_sort]
    have hlen : 3 * (0 + S.sorted.length) ≤ (JsArray.alloc (S.size * 3)).length := by
      simp [JsArray.alloc, hsl]
      omega
    have h := atomPosLoop_read st S.sorted 0 k (JsArray.alloc (S.size * 3)) hk hlen
    simp only [Nat.zero_add] at h
    rw [Nat.mul_comm 3 k]
    exact h

/-- C7 witness: the selection with bits 0 and 2 over the three-atom store; the
cell triple at ordinal 1 holds the coordinates of atom 2. -/
theorem claim_C7_witness :
    (getAtomDataPosition st7 S7).length = 3 * S7.size ∧
    readVec3 (getAtomDataPosition st7 S7) (3 * 1) = atomVec st7 2 := by
  have e0 : S7.sorted = [0, 2] := by
    show Finset.sort (· ≤ ·) ({0, 2} : Finset ℕ) = [0, 2]
    rw [show ({0, 2} : Finset ℕ) = insert 0 {2} from rfl,
      Finset.sort_insert _ (by decide) (by decide), Finset.sort_singleton]
  have hk : 1 < S7.sorted.length := by rw [e0]; norm_num
  have h := (claim_C7_atom_positions st7 S7).2 1 hk
  have e1 : S7.sorted.get ⟨1, hk⟩ = 2 := by
    rw [List.get_of_eq e0]
    rfl
  rw [e1] at h
  exact ⟨(claim_C7_atom_positions st7 S7).1, h⟩

/-- The counter after one multiple-bond write step advances by the bond
order. -/
theorem bondPosWrite_fst (st : AtomStore) (bs : BondStore) (radiusOf : ℕ → ℚ)
    (shiftDir : ℕ → ℚ × ℚ × ℚ) (sp : ℚ) (acc : ℕ × JsArray × JsArray) (idx : ℕ) :
    (bondPosWrite st bs radiusOf shiftDir sp acc idx).1 = acc.1 + bs.bondOrder idx := by
  simp only [bondPosWrite]
  split_ifs <;> rfl

/-- One multiple-bond write step preserves both array lengths. -/
theorem bondPosWrite_length (st : AtomStore) (bs : BondStore) (radiusOf : ℕ → ℚ)
    (shiftDir : ℕ → ℚ × ℚ × ℚ) (sp : ℚ) (acc : ℕ × JsArray × JsArray) (idx : ℕ) :
    (bondPosWrite st bs radiusOf shiftDir sp acc idx).2.1.length = acc.2.1.length ∧
    (bondPosWrite st bs radiusOf shiftDir sp acc idx).2.2.length = acc.2.2.length := by
  simp only [bondPosWrite]
  split_ifs <;> exact ⟨by simp [writeVec3_length], by simp [writeVec3_length]⟩

/-- One multiple-bond write step does not touch cells below three times the
incoming counter. -/
theorem bondPosWrite_data_lt (st : AtomStore) (bs : BondStore) (radiusOf : ℕ → ℚ)
    (shiftDir : ℕ → ℚ × ℚ × ℚ) (sp : ℚ) (acc : ℕ × JsArray × JsArray) (idx p : ℕ)
    (hp : p < acc.1 * 3) :
    (bondPosWrite st bs radiusOf shiftDir sp acc idx).2.1.data p = acc.2.1.data p ∧
    (bondPosWrite st bs radiusOf shiftDir sp acc idx).2.2.data p = acc.2.2.data p := by
  simp only [bondPosWrite]
  split_ifs <;>
    exact ⟨by repeat rw [writeVec3_data_lt _ _ _ _ (by omega)],
      by repeat rw [writeVec3_data_lt _ _ _ _ (by omega)]⟩

/-- The multiple-bond loop preserves both array lengths. -/
theorem bondPosLoop_length (st : AtomStore) (bs : BondStore) (radiusOf : ℕ → ℚ)
    (shiftDir : ℕ → ℚ × ℚ × ℚ) (sp : ℚ) (l : List ℕ) :
    ∀ acc : ℕ × JsArray × JsArray,
      ((l.foldl (bondPosWrite st bs radiusOf shiftDir sp) acc).2.1.length = acc.2.1.length ∧
        (l.foldl (bondPosWrite st bs radiusOf shiftDir sp) acc).2.2.length = acc.2.2.length) := by
  induction l with
  | nil => exact fun acc => ⟨rfl, rfl⟩
  | cons hd tl ih =>
    intro acc
    rw [List.foldl_cons]
    have hstep := bondPosWrite_length st bs radiusOf shiftDir sp acc hd
    have h := ih (bondPosWrite st bs radiusOf shiftDir sp acc hd)
    exact ⟨h.1.trans hstep.1, h.2.trans hstep.2⟩

/-- The multiple-bond loop does not touch cells below three times the incoming
counter. -/
theorem bondPosLoop_frame (st : AtomStore) (bs : BondStore) (radiusOf : ℕ → ℚ)
    (shiftDir : ℕ → ℚ × ℚ × ℚ) (sp : ℚ) (l : List ℕ) :
    ∀ (acc : ℕ × JsArray × JsArray) (p : ℕ), p < 3 * acc.1 →
      ((l.foldl (bondPosWrite st bs radiusOf shiftDir sp) acc).2.1.data p = acc.2.1.data p ∧
        (l.foldl (bondPosWrite st bs radiusOf shiftDir sp) acc).2.2.data p = acc.2.2.data p) := by
  induction l with
  | nil => exact fun acc p hp => ⟨rfl, rfl⟩
  | cons hd tl ih =>
    intro acc p hp
    rw [List.foldl_cons]
    have hstep := bondPosWrite_data_lt st bs radiusOf shiftDir sp acc hd p (by omega)
    have hfst := bondPosWrite_fst st bs radiusOf shiftDir sp acc hd
    have h := ih (bondPosWrite st bs radiusOf shiftDir sp acc hd) p (by omega)
    exact ⟨h.1.trans hstep.1, h.2.trans hstep.2⟩

/-- Reading a whole cell triple below three times the incoming counter sees
through the multiple-bond loop. -/
theorem bondPosLoop_frame_read (st : AtomStore) (bs : BondStore) (radiusOf : ℕ → ℚ)
    (shiftDir : ℕ → ℚ × ℚ × ℚ) (sp : ℚ) (l : List ℕ) (acc : ℕ × JsArray × JsArray)
    (o : ℕ) (ho : o + 2 < 3 * acc.1) :
    readVec3 ((l.foldl (bondPosWrite st bs radiusOf shiftDir sp) acc).2.1) o =
      readVec3 acc.2.1 o ∧
    readVec3 ((l.foldl (bondPosWrite st bs radiusOf shiftDir sp) acc).2.2) o =
      readVec3 acc.2.2 o := by
  have h0 := bondPosLoop_frame st bs radiusOf shiftDir sp l acc o (by omega)
  have h1 := bondPosLoop_frame st bs radiusOf shiftDir sp l acc (o + 1) (by omega)
  have h2 := bondPosLoop_frame st bs radiusOf shiftDir sp l acc (o + 2) (by omega)
  unfold readVec3
  exact ⟨by rw [h0.1, h1.1, h2.1], by rw [h0.2, h1.2, h2.2]⟩

/-- A cell triple entirely below the offset of a later triple write is
unchanged by it. -/
theorem readVec3_writeVec3_lt (a : JsArray) (o2 : ℕ) (v : Vec3) (o : ℕ) (h : o + 2 < o2) :
    readVec3 (writeVec3 a o2 v) o = readVec3 a o := by
  unfold readVec3
  rw [writeVec3_data_lt _ _ _ _ (by omega), writeVec3_data_lt _ _ _ _ (by omega),
    writeVec3_data_lt _ _ _ _ (by omega)]

set_option maxHeartbeats 1600000 in
/-- The k-th bond processed by the multiple-bond loop satisfies the per-bond
segment contract at its cumulative segment offset, for any starting counter,
provided the arrays are long enough. -/
theorem bondPosLoop_read (st : AtomStore) (bs : BondStore) (radiusOf : ℕ → ℚ)
    (shiftDir : ℕ → ℚ × ℚ × ℚ) (sp : ℚ) (l : List ℕ) :
    ∀ (i0 : ℕ) (a1 a2 : JsArray) (k : ℕ) (hk : k < l.length),
      a1.length = a2.length →
      3 * (i0 + sumOrders bs l) ≤ a1.length →
      bondSegsOk st bs radiusOf shiftDir sp
        ((l.foldl (bondPosWrite st bs radiusOf shiftDir sp) (i0, a1, a2)).2.1)
        ((l.foldl (bondPosWrite st bs radiusOf shiftDir sp) (i0, a1, a2)).2.2)
        (i0 + sumOrders bs (l.take k)) (l.get ⟨k, hk⟩) := by
  induction l with
  | nil =>
    intro i0 a1 a2 k hk
    exact absurd hk (by simp)
  | cons hd tl ih =>
    intro i0 a1 a2 k hk hlen12 hlen
    have hsum : sumOrders bs (hd :: tl) = bs.bondOrder hd + sumOrders bs tl := by
      simp [sumOrders]
    rw [hsum] at hlen
    have hstepf := bondPosWrite_fst st bs radiusOf shiftDir sp (i0, a1, a2) hd
    have hsteplen := bondPosWrite_length st bs radiusOf shiftDir sp (i0, a1, a2) hd
    rw [List.foldl_cons]
    cases k with
    | zero =>
      simp only [List.take_zero, sumOrders, List.map_nil, List.sum_nil, Nat.add_zero]
      rw [show (hd :: tl).get ⟨0, hk⟩ = hd from rfl]
      simp only [bondSegsOk]
      refine ⟨?_, ?_, ?_⟩
      · intro hord
        have hstep : bondPosWrite st bs radiusOf shiftDir sp (i0, a1, a2) hd =
            (i0 + 2,
              writeVec3 (writeVec3 a1 (i0 * 3)
                  (vadd (atomVec st (bs.atomIndex1 hd))
                    (bondShiftVec bs radiusOf shiftDir sp hd)))
                (i0 * 3 + 3)
                (vsub (atomVec st (bs.atomIndex1 hd))
                  (bondShiftVec bs radiusOf shiftDir sp hd)),
              writeVec3 (writeVec3 a2 (i0 * 3)
                  (vadd (atomVec st (bs.atomIndex2 hd))
                    (bondShiftVec bs radiusOf shiftDir sp hd)))
                (i0 * 3 + 3)
                (vsub (atomVec st (bs.atomIndex2 hd))
                  (bondShiftVec bs radiusOf shiftDir sp hd))) := by
          simp only [bondPosWrite, bondShiftVec, hord]
          norm_num
        have hs1 : (bondPosWrite st bs radiusOf shiftDir sp (i0, a1, a2) hd).2.1 =
            writeVec3 (writeVec3 a1 (i0 * 3)
                (vadd (atomVec st (bs.atomIndex1 hd))
                  (bondShiftVec bs radiusOf shiftDir sp hd)))
              (i0 * 3 + 3)
              (vsub (atomVec st (bs.atomIndex1 hd))
                (bondShiftVec bs radiusOf shiftDir sp hd)) := by
          rw [hstep]
        have hs2 : (bondPosWrite st bs radiusOf shiftDir sp (i0, a1, a2) hd).2.2 =
            writeVec3 (writeVec3 a2 (i0 * 3)
                (vadd (atomVec st (bs.atomIndex2 hd))
                  (bondShiftVec bs radiusOf shiftDir sp hd)))
              (i0 * 3 + 3)
              (vsub (atomVec st (bs.atomIndex2 hd))
                (bondShiftVec bs radiusOf shiftDir sp hd)) := by
          rw [hstep]
        have hlen1 : (bondPosWrite st bs radiusOf shiftDir sp (i0, a1, a2) hd).2.1.length =
            a1.length := hsteplen.1
        have hlen2 : (bondPosWrite st bs radiusOf shiftDir sp (i0, a1, a2) hd).2.2.length =
            a2.length := hsteplen.2
        have hb0 : ∀ o : ℕ, o + 2 < 3 * (i0 + 2) →
            o + 2 < 3 * (bondPosWrite st bs radiusOf shiftDir sp (i0, a1, a2) hd).1 := by
          intro o h
          rw [hstepf, hord]
          exact h
        refine ⟨?_, ?_, ?_, ?_⟩
        · rw [(bondPosLoop_frame_read st bs radiusOf shiftDir sp tl
              (bondPosWrite st bs radiusOf shiftDir sp (i0, a1, a2) hd) (i0 * 3)
              (hb0 _ (by omega))).1, hs1,
            readVec3_writeVec3_lt _ _ _ _ (by omega)]
          exact readVec3_writeVec3 _ _ _ (by rw [hord] at hlen; omega)
        · rw [(bondPosLoop_frame_read st bs radiusOf shiftDir sp tl
              (bondPosWrite st bs radiusOf shiftDir sp (i0, a1, a2) hd) (i0 * 3 + 3)
              (hb0 _ (by omega))).1, hs1]
          exact readVec3_writeVec3 _ _ _
            (by rw [writeVec3_length]; rw [hord] at hlen; omega)
        · rw [(bondPosLoop_frame_read st bs radiusOf shiftDir sp tl
              (bondPosWrite st bs radiusOf shiftDir sp (i0, a1, a2) hd) (i0 * 3)
              (hb0 _ (by omega))).2, hs2,
            readVec3_writeVec3_lt _ _ _ _ (by omega)]
          exact readVec3_writeVec3 _ _ _
            (by rw [hord] at hlen; rw [hlen12] at hlen; omega)
        · rw [(bondPosLoop_frame_read st bs radiusOf shiftDir sp tl
              (bondPosWrite st bs radiusOf shiftDir sp (i0, a1, a2) hd) (i0 * 3 + 3)
              (hb0 _ (by omega))).2, hs2]
          exact readVec3_writeVec3 _ _ _
            (by rw [writeVec3_length]; rw [hord] at hlen; rw [hlen12] at hlen; omega)
      · intro hord
        have hstep : bondPosWrite st bs radiusOf shiftDir sp (i0, a1, a2) hd =
            (i0 + 3,
              writeVec3 (writeVec3 (writeVec3 a1 (i0 * 3) (atomVec st (bs.atomIndex1 hd)))
                  (i0 * 3 + 3)
                  (vadd (atomVec st (bs.atomIndex1 hd))
                    (bondShiftVec bs radiusOf shiftDir sp hd)))
                (i0 * 3 + 6)
                (vsub (atomVec st (bs.atomIndex1 hd))
                  (bondShiftVec bs radiusOf shiftDir sp hd)),
              writeVec3 (writeVec3 (writeVec3 a2 (i0 * 3) (atomVec st (bs.atomIndex2 hd)))
                  (i0 * 3 + 3)
                  (vadd (atomVec st (bs.atomIndex2 hd))
                    (bondShiftVec bs radiusOf shiftDir sp hd)))
                (i0 * 3 + 6)
                (vsub (atomVec st (bs.atomIndex2 hd))
                  (bondShiftVec bs radiusOf shiftDir sp hd))) := by
          simp only [bondPosWrite, bondShiftVec, hord]
          norm_num
        have hs1 : (bondPosWrite st bs radiusOf shiftDir sp (i0, a1, a2) hd).2.1 =
            writeVec3 (writeVec3 (writeVec3 a1 (i0 * 3) (atomVec st (bs.atomIndex1 hd)))
                (i0 * 3 + 3)
                (vadd (atomVec st (bs.atomIndex1 hd))
                  (bondShiftVec bs radiusOf shiftDir sp hd)))
              (i0 * 3 + 6)
              (vsub (atomVec st (bs.atomIndex1 hd))
                (bondShiftVec bs radiusOf shiftDir sp hd)) := by
          rw [hstep]
        have hs2 : (bondPosWrite st bs radiusOf shiftDir sp (i0, a1, a2) hd).2.2 =
            writeVec3 (writeVec3 (writeVec3 a2 (i0 * 3) (atomVec st (bs.atomIndex2 hd)))
                (i0 * 3 + 3)
                (vadd (atomVec st (bs.atomIndex2 hd))
                  (bondShiftVec bs radiusOf shiftDir sp hd)))
              (i0 * 3 + 6)
              (vsub (atomVec st (bs.atomIndex2 hd))
                (bondShiftVec bs radiusOf shiftDir sp hd)) := by
          rw [hstep]
        have hb0 : ∀ o : ℕ, o + 2 < 3 * (i0 + 3) →
            o + 2 < 3 * (bondPosWrite st bs radiusOf shiftDir sp (i0, a1, a2) hd).1 := by
          intro o h
          rw [hstepf, hord]
          exact h
        rw [hord] at hlen
        refine ⟨?_, ?_, ?_, ?_, ?_, ?_⟩
        · rw [(bondPosLoop_frame_read st bs radiusOf shiftDir sp tl
              (bondPosWrite st bs radiusOf shiftDir sp (i0, a1, a2) hd) (i0 * 3)
              (hb0 _ (by omega))).1, hs1,
            readVec3_writeVec3_lt _ _ _ _ (by omega),
            readVec3_writeVec3_lt _ _ _ _ (by omega)]
          exact readVec3_writeVec3 _ _ _ (by omega)
        · rw [(bondPosLoop_frame_read st bs radiusOf shiftDir sp tl
              (bondPosWrite st bs radiusOf shiftDir sp (i0, a1, a2) hd) (i0 * 3 + 3)
              (hb0 _ (by omega))).1, hs1,
            readVec3_writeVec3_lt _ _ _ _ (by omega)]
          exact readVec3_writeVec3 _ _ _ (by rw [writeVec3_length]; omega)
        · rw [(bondPosLoop_frame_read st bs radiusOf shiftDir sp tl
              (bondPosWrite st bs radiusOf shiftDir sp (i0, a1, a2) hd) (i0 * 3 + 6)
              (hb0 _ (by omega))).1, hs1]
          exact readVec3_writeVec3 _ _ _
            (by rw [writeVec3_length, writeVec3_length]; omega)
        · rw [(bondPosLoop_frame_read st bs radiusOf shiftDir sp tl
              (bondPosWrite st bs radiusOf shiftDir sp (i0, a1, a2) hd) (i0 * 3)
              (hb0 _ (by omega))).2, hs2,
            readVec3_writeVec3_lt _ _ _ _ (by omega),
            readVec3_writeVec3_lt _ _ _ _ (by omega)]
          exact readVec3_writeVec3 _ _ _ (by rw [hlen12] at hlen; omega)
        · rw [(bondPosLoop_frame_read st bs radiusOf shiftDir sp tl
              (bondPosWrite st bs radiusOf shiftDir sp (i0, a1, a2) hd) (i0 * 3 + 3)
              (hb0 _ (by omega))).2, hs2,
            readVec3_writeVec3_lt _ _ _ _ (by omega)]
          exact readVec3_writeVec3 _ _ _
            (by rw [writeVec3_length]; rw [hlen12] at hlen; omega)
        · rw [(bondPosLoop_frame_read st bs radiusOf shiftDir sp tl
              (bondPosWrite st bs radiusOf shiftDir sp (i0, a1, a2) hd) (i0 * 3 + 6)
              (hb0 _ (by omega))).2, hs2]
          exact readVec3_writeVec3 _ _ _
            (by rw [writeVec3_length, writeVec3_length]; rw [hlen12] at hlen; omega)
      · intro hord
        have hstep : bondPosWrite st bs radiusOf shiftDir sp (i0, a1, a2) hd =
            (i0 + bs.bondOrder hd,
              writeVec3 a1 (i0 * 3) (atomVec st (bs.atomIndex1 hd)),
              writeVec3 a2 (i0 * 3) (atomVec st (bs.atomIndex2 hd))) := by
          simp only [bondPosWrite]
          rw [if_pos (by omega : 1 < bs.bondOrder hd),
            if_neg (by omega : ¬ bs.bondOrder hd = 2),
            if_neg (by omega : ¬ bs.bondOrder hd = 3)]
        have hs1 : (bondPosWrite st bs radiusOf shiftDir sp (i0, a1, a2) hd).2.1 =
            writeVec3 a1 (i0 * 3) (atomVec st (bs.atomIndex1 hd)) := by
          rw [hstep]
        have hs2 : (bondPosWrite st bs radiusOf shiftDir sp (i0, a1, a2) hd).2.2 =
            writeVec3 a2 (i0 * 3) (atomVec st (bs.atomIndex2 hd)) := by
          rw [hstep]
        have hb0 : i0 * 3 + 2 < 3 * (bondPosWrite st bs radiusOf shiftDir sp (i0, a1, a2) hd).1 := by
          rw [hstepf]
          omega
        refine ⟨?_, ?_⟩
        · rw [(bondPosLoop_frame_read st bs radiusOf shiftDir sp tl
              (bondPosWrite st bs radiusOf shiftDir sp (i0, a1, a2) hd) (i0 * 3) hb0).1, hs1]
          exact readVec3_writeVec3 _ _ _ (by omega)
        · rw [(bondPosLoop_frame_read st bs radiusOf shiftDir sp tl
              (bondPosWrite st bs radiusOf shiftDir sp (i0, a1, a2) hd) (i0 * 3) hb0).2, hs2]
          exact readVec3_writeVec3 _ _ _ (by rw [hlen12] at hlen; omega)
    | succ k2 =>
      have hk2 : k2 < tl.length := by
        simp only [List.length_cons] at hk
        omega
      have h := ih ((bondPosWrite st bs radiusOf shiftDir sp (i0, a1, a2) hd).1)
        ((bondPosWrite st bs radiusOf shiftDir sp (i0, a1, a2) hd).2.1)
        ((bondPosWrite st bs radiusOf shiftDir sp (i0, a1, a2) hd).2.2)
        k2 hk2
        (by rw [hsteplen.1, hsteplen.2]; exact hlen12)
        (by rw [hsteplen.1, hstepf]; dsimp only; omega)
      have eoff : i0 + sumOrders bs (List.take (k2 + 1) (hd :: tl)) =
          (bondPosWrite st bs radiusOf shiftDir sp (i0, a1, a2) hd).1 +
            sumOrders bs (List.take k2 tl) := by
        rw [hstepf, List.take_succ_cons]
        simp only [sumOrders, List.map_cons, List.sum_cons]
        omega
      rw [eoff, List.get_cons_succ]
      exact h

/-- C3 amended: getBondData restricted to positions with multipleBond enabled
allocates two arrays of three times the total bond order of the selection; the
k-th selected bond (ascending), whose segments start at three times the summed
orders of the preceding selected bonds, is expanded for order 2 or 3 into that
many parallel segments displaced by the externally computed shift direction
scaled by radius - (radius / bondOrder) * bondSpacing — not by
(radius / bondOrder) * bondSpacing as the specification claims, the spacing
factor still defaulting to 0.85 — while an order above 3 falls back to a
single undisplaced segment. -/
theorem claim_C3_multiple_bond (st : AtomStore) (bs : BondStore) (radiusOf : ℕ → ℚ)
    (shiftDir : ℕ → ℚ × ℚ × ℚ) (sp : ℚ) (S : Bitset) :
    (getBondDataPosition st bs radiusOf shiftDir sp S).1.length =
      3 * sumOrders bs S.sorted ∧
    (getBondDataPosition st bs radiusOf shiftDir sp S).2.length =
      3 * sumOrders bs S.sorted ∧
    ∀ k (hk : k < S.sorted.length),
      bondSegsOk st bs radiusOf shiftDir sp
        (getBondDataPosition st bs radiusOf shiftDir sp S).1
        (getBondDataPosition st bs radiusOf shiftDir sp S).2
        (sumOrders bs (S.sorted.take k)) (S.sorted.get ⟨k, hk⟩) := by
  have hlenEq := bondPosLoop_length st bs radiusOf shiftDir sp S.sorted
    (0, JsArray.alloc (sumOrders bs S.sorted * 3), JsArray.alloc (sumOrders bs S.sorted * 3))
  refine ⟨hlenEq.1.trans (by simp [JsArray.alloc, Nat.mul_comm]),
    hlenEq.2.trans (by simp [JsArray.alloc, Nat.mul_comm]), ?_⟩
  intro k hk
  have h := bondPosLoop_read st bs radiusOf shiftDir sp S.sorted 0
    (JsArray.alloc (sumOrders bs S.sorted * 3)) (JsArray.alloc (sumOrders bs S.sorted * 3))
    k hk rfl (by simp [JsArray.alloc]; omega)
  simp only [Nat.zero_add] at h
  exact h

/-- C3 counterexample: one order-2 bond along the z axis between atoms with
extraction radius 1, default spacing factor 0.85, unit shift direction along
x: the first written cell is 0.575 = 1 - (1/2) * 0.85, whereas the claimed
displacement magnitude (radius / bondOrder) * spacingFactor would put
0.425 = (1/2) * 0.85 there. -/
theorem claim_C3_counterexample :
    (getBondDataPosition st3 bs3 (fun _ => 1) shiftX (17/20) Sb).1.data 0 =
      JsNum.num (23/40) ∧ (23/40 : ℚ) ≠ 17/40 := by
  have hs : Sb.sorted = [0] := by
    show Finset.sort (· ≤ ·) ({0} : Finset ℕ) = [0]
    exact Finset.sort_singleton _ 0
  constructor
  · show ((Sb.sorted.foldl (bondPosWrite st3 bs3 (fun _ => 1) shiftX (17/20))
        (0, JsArray.alloc (sumOrders bs3 Sb.sorted * 3),
          JsArray.alloc (sumOrders bs3 Sb.sorted * 3))).2.1).data 0 = JsNum.num (23/40)
    rw [hs]
    simp only [List.foldl_cons, List.foldl_nil]
    have halloc : (JsArray.alloc (sumOrders bs3 [0] * 3)).length = 6 := by
      norm_num [JsArray.alloc, sumOrders, bs3]
    have hstep : bondPosWrite st3 bs3 (fun _ => 1) shiftX (17/20)
        (0, JsArray.alloc (sumOrders bs3 [0] * 3), JsArray.alloc (sumOrders bs3 [0] * 3)) 0 =
        (0 + 2,
          writeVec3 (writeVec3 (JsArray.alloc (sumOrders bs3 [0] * 3)) (0 * 3)
              (vadd (atomVec st3 (bs3.atomIndex1 0))
                (bondShiftVec bs3 (fun _ => 1) shiftX (17/20) 0)))
            (0 * 3 + 3)
            (vsub (atomVec st3 (bs3.atomIndex1 0))
              (bondShiftVec bs3 (fun _ => 1) shiftX (17/20) 0)),
          writeVec3 (writeVec3 (JsArray.alloc (sumOrders bs3 [0] * 3)) (0 * 3)
              (vadd (atomVec st3 (bs3.atomIndex2 0))
                (bondShiftVec bs3 (fun _ => 1) shiftX (17/20) 0)))
            (0 * 3 + 3)
            (vsub (atomVec st3 (bs3.atomIndex2 0))
              (bondShiftVec bs3 (fun _ => 1) shiftX (17/20) 0))) := by
      simp only [bondPosWrite, bondShiftVec, show bs3.bondOrder 0 = 2 from rfl]
      norm_num
    rw [show (bondPosWrite st3 bs3 (fun _ => 1) shiftX (17/20)
        (0, JsArray.alloc (sumOrders bs3 [0] * 3), JsArray.alloc (sumOrders bs3 [0] * 3)) 0).2.1 =
        writeVec3 (writeVec3 (JsArray.alloc (sumOrders bs3 [0] * 3)) (0 * 3)
            (vadd (atomVec st3 (bs3.atomIndex1 0))
              (bondShiftVec bs3 (fun _ => 1) shiftX (17/20) 0)))
          (0 * 3 + 3)
          (vsub (atomVec st3 (bs3.atomIndex1 0))
            (bondShiftVec bs3 (fun _ => 1) shiftX (17/20) 0)) from by rw [hstep]]
    rw [writeVec3_data_lt _ _ _ _ (by norm_num)]
    unfold writeVec3
    rw [JsArray.data_set_ne _ _ _ _ (by norm_num), JsArray.data_set_ne _ _ _ _ (by norm_num),
      JsArray.data_set_self _ _ _ (by rw [halloc]; norm_num)]
    norm_num [vadd, atomVec, st3, bs3, bondShiftVec, qscale, shiftX, JsNum.add]
  · norm_num

/-- C3 witness: the order-2 bond's first segment is the first endpoint
displaced by the computed shift vector, and an order-5 bond falls back to the
undisplaced endpoint. -/
theorem claim_C3_witness :
    readVec3 (getBondDataPosition st3 bs3 (fun _ => 1) shiftX (17/20) Sb).1 0 =
      vadd (atomVec st3 0) (bondShiftVec bs3 (fun _ => 1) shiftX (17/20) 0) ∧
    readVec3 (getBondDataPosition st3 bs5 (fun _ => 1) shiftX (17/20) Sb).1 0 =
      atomVec st3 0 := by
  have hs : Sb.sorted = [0] := by
    show Finset.sort (· ≤ ·) ({0} : Finset ℕ) = [0]
    exact Finset.sort_singleton _ 0
  have hk0 : 0 < Sb.sorted.length := by
    rw [hs]
    norm_num
  constructor
  · exact (((claim_C3_multiple_bond st3 bs3 (fun _ => 1) shiftX (17/20) Sb).2.2 0 hk0).1
      rfl).1
  · exact (((claim_C3_multiple_bond st3 bs5 (fun _ => 1) shiftX (17/20) Sb).2.2 0 hk0).2.2
      (by simp [bs5])).1

end NGL
